import Mathlib

/-!
Verification development for the PrestaShop SEO rewriting pipeline
(`prestashop_seo_rewriter.py`, `streamlit_app.py`).

The Python source is shallowly embedded: pure string transformations become
Lean functions over `String`/`List Char`; the outbound generation call and
the external HTML parser (BeautifulSoup) and catalog fetchers are modelled
as oracle function parameters; Python exceptions become `Except`/`Option`.

Embedding conventions:
- Python `str` is `String`; `len` is `String.length` (both count code points).
- Python whitespace (`str.strip`, regex `\s`) is modelled on the six ASCII
  whitespace characters.
- Regex `\d` is modelled as the ASCII digits (the inputs in question are
  ASCII).
- `str.lower` is modelled per character via `Char.toLower` (correct on
  ASCII, which covers the brand phrase and keyword detection in the code).
- Loosely-shaped PrestaShop field values (str / int / list / dict) are the
  inductive `PValue`; paths where the Python code would raise on a value of
  the wrong shape are `Except.error ()`.
-/

namespace Fivape

/-! ## Python string primitives -/

/-- The whitespace characters recognised by `str.strip` / regex `\s`
(ASCII fragment). -/
def isPySpace (c : Char) : Bool :=
  c = ' ' || c = '\t' || c = '\n' || c = '\r' || c = '\x0b' || c = '\x0c'

/-- Python `str.strip()`. -/
def pyStrip (s : String) : String :=
  String.mk (((s.toList.dropWhile isPySpace).reverse.dropWhile isPySpace).reverse)

/-- Python `str.lower()` (per-character; exact on ASCII). -/
def pyLower (s : String) : String :=
  String.mk (s.toList.map Char.toLower)

/-- Substring test on character lists (Python `pat in s`). -/
def containsL (pat : List Char) : List Char → Bool
  | [] => pat.isEmpty
  | c :: t => pat.isPrefixOf (c :: t) || containsL pat t

/-- Python `pat in s` substring containment. -/
def strContains (s pat : String) : Bool :=
  containsL pat.toList s.toList

/-- `pat` starts `s` (used to state that a string is reattached at the very
start). -/
def strStartsWith (s pat : String) : Bool :=
  pat.toList.isPrefixOf s.toList

/-- Word counting for Python `str.split()` followed by `len`: the number of
maximal runs of non-whitespace characters. -/
def countWordsL : Bool → List Char → Nat
  | _, [] => 0
  | inw, c :: t =>
    if isPySpace c then countWordsL false t
    else (if inw then 0 else 1) + countWordsL true t

/-- `len(s.split())` in Python. -/
def pyWordCount (s : String) : Nat :=
  countWordsL false s.toList

/-- Python `s.split(sep)` for a non-empty separator, on character lists:
scan left to right, break at each leftmost separator occurrence.  The fuel
(list length + 1 suffices) keeps the recursion structural. -/
def splitL (sep : List Char) : Nat → List Char → List Char → List (List Char)
  | 0, acc, l => [acc.reverse ++ l]
  | _, acc, [] => [acc.reverse]
  | fuel + 1, acc, c :: t =>
    if sep.isPrefixOf (c :: t) then
      acc.reverse :: splitL sep fuel [] ((c :: t).drop sep.length)
    else splitL sep fuel (c :: acc) t

/-- Python `s.split(sep)` (the separators used in the source are all
non-empty; an empty separator raises in Python and is not modelled). -/
def pySplit (s sep : String) : List String :=
  (splitL sep.toList (s.toList.length + 1) [] s.toList).map String.mk

/-- Count of non-overlapping, leftmost occurrences of a non-empty pattern
(`re.findall` with a literal pattern), with an explicit fuel for structural
recursion (fuel = length of the scanned list suffices). -/
def countSubF (pat : List Char) : Nat → List Char → Nat
  | 0, _ => 0
  | _, [] => 0
  | fuel + 1, c :: t =>
    if pat.isEmpty then 0
    else if pat.isPrefixOf (c :: t) then 1 + countSubF pat fuel ((c :: t).drop pat.length)
    else countSubF pat fuel t

/-- `len(re.findall(pat, text, re.IGNORECASE))` for a literal lowercase
pattern. -/
def countOccurCI (pat text : String) : Nat :=
  countSubF pat.toList (pyLower text).toList.length (pyLower text).toList

/-- A single-quote character as a string (used to build Python literal
texts). -/
def apos : String := (Char.ofNat 39).toString

/-! ## Keyword accounting (`count_keywords`) -/

/-- `count_keywords`: case-insensitive occurrence counts of the fixed SEO
keyword set, in source dict order. -/
def countKeywords (text : String) : List (String × Nat) :=
  [("e-liquide", countOccurCI "e-liquide" text),
   ("vapotage", countOccurCI "vapotage" text),
   ("cigarette électronique", countOccurCI "cigarette électronique" text),
   ("vape", countOccurCI "vape" text),
   ("nicotine", countOccurCI "nicotine" text)]

/-- Sum of the values of a keyword-count dict. -/
def sumVals (l : List (String × Nat)) : Nat :=
  (l.map Prod.snd).sum

/-! ## Brand phrase detection -/

/-- The protected brand phrase. -/
def brandPhrase : String := "Le Vapoteur Discount"

/-- Line 96: `"Le Vapoteur Discount" in content or "le vapoteur discount"
in content.lower()`. -/
def brandDetect (content : String) : Bool :=
  strContains content brandPhrase || strContains (pyLower content) "le vapoteur discount"

/-! ## Price-prefix pattern (`re.match(r'(Prix\s*:\s*[\d,]+\s*€\s*\|\s*)', content)`)

Every character class in the pattern is disjoint from the literal that
follows it, so the greedy regex is equivalent to the maximal-munch parser
below. -/

/-- Characters matched by `[\d,]`. -/
def isDigitComma (c : Char) : Bool :=
  c.isDigit || c = ','

/-- Match a literal at the front of a list, returning the remainder. -/
def pLit (lit l : List Char) : Option (List Char) :=
  if lit.isPrefixOf l then some (l.drop lit.length) else none

/-- Match a single expected character at the front of a list. -/
def pChar (c : Char) : List Char → Option (List Char)
  | [] => none
  | x :: t => if x = c then some t else none

/-- The remainder of the input after the leading price-prefix pattern, or
`none` when the pattern does not match at the start. -/
def priceTail (l : List Char) : Option (List Char) :=
  match pLit "Prix".toList l with
  | none => none
  | some l1 =>
    match pChar ':' (l1.dropWhile isPySpace) with
    | none => none
    | some l3 =>
      if ((l3.dropWhile isPySpace).takeWhile isDigitComma).isEmpty then none
      else
        match pChar '€' (((l3.dropWhile isPySpace).dropWhile isDigitComma).dropWhile isPySpace) with
        | none => none
        | some l7 =>
          match pChar '|' (l7.dropWhile isPySpace) with
          | none => none
          | some l9 => some (l9.dropWhile isPySpace)

/-- The captured price-prefix group and the remaining content, when the
pattern matches at the start (`price_match.group(1)` and
`content[len(price_prefix):]`). -/
def priceSplit (content : String) : Option (String × String) :=
  match priceTail content.toList with
  | none => none
  | some rest =>
    some (String.mk (content.toList.take (content.toList.length - rest.length)),
          String.mk rest)

/-! ## HTML tag regex `<[^>]+>` (`re.sub` removal and `re.search`) -/

/-- At a position right after `<`, the suffix after the first matching
`<[^>]+>` tag, when the regex matches there. -/
def tagSplit (t : List Char) : Option (List Char) :=
  let run := t.takeWhile (fun c => c ≠ '>')
  if run.isEmpty then none
  else
    match t.drop run.length with
    | [] => none
    | _ :: after => some after

/-- `re.sub(r'<[^>]+>', '', ·)` on character lists, with fuel (fuel = list
length suffices). -/
def stripTagsF : Nat → List Char → List Char
  | 0, _ => []
  | _, [] => []
  | fuel + 1, c :: t =>
    if c = '<' then
      match tagSplit t with
      | some rest => stripTagsF fuel rest
      | none => c :: stripTagsF fuel t
    else c :: stripTagsF fuel t

/-- `re.sub(r'<[^>]+>', '', s)`. -/
def stripTagsS (s : String) : String :=
  String.mk (stripTagsF s.toList.length s.toList)

/-- `bool(re.search(r'<[^>]+>', s))`. -/
def hasTagL : List Char → Bool
  | [] => false
  | c :: t => (c = '<' && (tagSplit t).isSome) || hasTagL t

/-- `bool(re.search(r'<[^>]+>', s))` on strings. -/
def hasTagS (s : String) : Bool :=
  hasTagL s.toList

/-! ## The rewrite step (`rewrite_content_with_seo`)

The single OpenAI chat-completion round trip is an oracle
`gen : GenRequest → Option String`; `none` stands for any transport or API
exception inside the `try` block, `some resp` for
`response.choices[0].message.content`.  The full prompt string is a pure
function of the `GenRequest` fields, so the oracle sees every datum the
real call depends on. -/

/-- Statistics dict built at the end of a successful rewrite. -/
structure StatsRec where
  originalLength : Nat
  newLength : Nat
  originalWordCount : Nat
  newWordCount : Nat
  htmlPreserved : Bool
  keywordsIntegrated : List (String × Nat)
  pricePreserved : Bool
  brandPreserved : Option Bool
deriving Repr, DecidableEq

/-- The data assembled into the generation request: prompt components (the
prompt is a fixed template over these) plus the system message persona,
which is constant. `contentPayload` is the `CONTENU À RÉÉCRIRE` section,
i.e. the `content` variable at call time. -/
structure GenRequest where
  fieldType : String
  itemName : String
  itemType : String
  targetLength : String
  contentPayload : String
  brandInstruction : String
  priceInstruction : String
deriving Repr, DecidableEq

/-- The `length_targets` table with its `.get` default. -/
def lengthTarget (fieldType : String) (hasPfx : Bool) : String :=
  if fieldType = "Description courte" then "50-100 mots"
  else if fieldType = "Description" then "200-400 mots"
  else if fieldType = "Meta description" then
    (if hasPfx then "100-120 caractères" else "140-150 caractères")
  else if fieldType = "Meta titre" then "50-60 caractères"
  else "100-200 mots"

/-- The brand-preservation instruction clause (lines 122-123). -/
def brandInstructionText : String :=
  "\nIMPORTANT : Si le texte contient \"Le Vapoteur Discount\" - CONSERVE EXACTEMENT cette mention avec cette orthographe."

/-- The price-omission instruction clause (lines 126-128); note that it
embeds the captured prefix verbatim, as the f-string does. -/
def priceInstructionText (pfx : String) : String :=
  "\nTRÈS IMPORTANT : Le texte commence par \"" ++ pfx ++
    "\" - NE PAS l" ++ apos ++ "inclure dans ta réécriture, je l" ++ apos ++
    "ajouterai moi-même."

/-- Lines 98-106: the captured price prefix (or `""`) and the content that
remains to be rewritten (`content[len(price_prefix):].strip()`; the whole
input when no prefix applies). -/
def priceExtract (fieldType content : String) : String × String :=
  if fieldType = "Meta description" then
    match priceSplit content with
    | some (p, r) => (p, pyStrip r)
    | none => ("", content)
  else ("", content)

/-- The generation request built by `rewrite_content_with_seo` for a given
input (lines 108-156). -/
def rewriteRequest (content fieldType itemName itemType : String) : GenRequest :=
  { fieldType := fieldType
    itemName := itemName
    itemType := itemType
    targetLength := lengthTarget fieldType ((priceExtract fieldType content).1 != "")
    contentPayload := (priceExtract fieldType content).2
    brandInstruction := if brandDetect content then brandInstructionText else ""
    priceInstruction :=
      if (priceExtract fieldType content).1 != "" then
        priceInstructionText (priceExtract fieldType content).1
      else "" }

/-- `price_prefix + s if price_prefix else s`. -/
def reattach (pfx s : String) : String :=
  if pfx = "" then s else pfx ++ s

/-- The code-fence removal loop (lines 172-180): toggle on lines containing
the triple backtick, keep lines outside fenced blocks. -/
def fenceFilter : Bool → List String → List String
  | _, [] => []
  | inBlock, line :: rest =>
    if strContains line "```" then fenceFilter (!inBlock) rest
    else if inBlock then fenceFilter inBlock rest
    else line :: fenceFilter inBlock rest

/-- Lines 171-180: strip code-fence markers when present. -/
def stripFences (s : String) : String :=
  if strContains s "```" then
    pyStrip (String.intercalate "\n" (fenceFilter false (pySplit s "\n")))
  else s

/-- `sentence + ('.' if not sentence.endswith('.') else '')`. -/
def pterm (s : String) : String :=
  if s.endsWith "." then s else s ++ "."

/-- The paragraph-grouping loop (lines 192-198): sentences are accumulated
and a paragraph element is emitted after every third sentence and at the
final sentence. -/
def groupPs (total : Nat) : Nat → List String → List String → List String
  | _, _, [] => []
  | i, cur, s :: rest =>
    let cur2 := cur ++ [pterm s]
    if (i + 1) % 3 = 0 || i = total - 1 then
      ("<p>" ++ String.intercalate " " cur2 ++ "</p>") :: groupPs total (i + 1) [] rest
    else groupPs total (i + 1) cur2 rest

/-- Lines 186-201: wrap a long-form result without markup into paragraph
elements. -/
def wrapParagraphs (fieldType rewritten : String) : String :=
  if (fieldType = "Description courte" || fieldType = "Description")
      && !(strContains rewritten "<") then
    if (pySplit rewritten ". ").length > 3 then
      String.intercalate "\n"
        (groupPs (pySplit rewritten ". ").length 0 [] (pySplit rewritten ". "))
    else "<p>" ++ rewritten ++ "</p>"
  else rewritten

/-- The statistics dict (lines 203-216).  `content2` is the `content`
variable at that point (the remainder after prefix removal, or the whole
input).  Note the source appends the prefix on the right in the
original-length/word-count expressions. -/
def mkStats (content2 pfx : String) (hasBrand : Bool) (rewritten : String) : StatsRec :=
  { originalLength := if pfx = "" then content2.length else (content2 ++ pfx).length
    newLength := rewritten.length
    originalWordCount := pyWordCount (if pfx = "" then content2 else content2 ++ pfx)
    newWordCount := pyWordCount rewritten
    htmlPreserved := hasTagS rewritten
    keywordsIntegrated := countKeywords rewritten
    pricePreserved := pfx != ""
    brandPreserved := if hasBrand then some (strContains rewritten brandPhrase) else none }

/-- `rewrite_content_with_seo` (lines 87-223).  An empty stats dict `{}` is
`none`.  The unused `html_structure` argument of the Python function is
omitted (it is never read). -/
def rewriteContentWithSeo (gen : GenRequest → Option String)
    (content fieldType itemName itemType : String) : String × Option StatsRec :=
  if content = "" || (pyStrip content).length < 10 then (content, none)
  else
    let hasBrand := brandDetect content
    let pfx := (priceExtract fieldType content).1
    let content2 := (priceExtract fieldType content).2
    match gen (rewriteRequest content fieldType itemName itemType) with
    | none => (reattach pfx content2, none)
    | some resp =>
      let r2 := stripFences (pyStrip resp)
      let r3 := reattach pfx r2
      let r4 := wrapParagraphs fieldType r3
      (r4, some (mkStats content2 pfx hasBrand r4))

/-! ## HTML content splitter (`extract_and_preserve_html`)

BeautifulSoup is external; the entire `try` block body (parsing, image and
link collection, flags, text extraction) is the oracle
`parse : String → Option ParsedHtml`, `none` standing for any exception in
it.  The `original_html` entry is set from the function's own argument on
both the success and the fallback paths, which is what the claims are
about. -/

/-- An `img` record collected from the soup. -/
structure ImgRec where
  src : String
  alt : String
  title : String
deriving Repr, DecidableEq

/-- An `a` record collected from the soup. -/
structure LinkRec where
  href : String
  text : String
  title : String
deriving Repr, DecidableEq

/-- What the parser oracle yields: everything the `try` block computes from
the soup. -/
structure ParsedHtml where
  text : String
  images : List ImgRec
  links : List LinkRec
  hasLists : Bool
  hasHeadings : Bool
deriving Repr, DecidableEq

/-- The structure dict returned by `extract_and_preserve_html`: `{}` for
empty input, the full dict on success, and the dict with only
`original_html` on a parse failure. -/
inductive SplitStructure where
  | empty : SplitStructure
  | full (images : List ImgRec) (links : List LinkRec)
      (hasLists hasHeadings : Bool) (originalHtml : String) : SplitStructure
  | fallback (originalHtml : String) : SplitStructure
deriving Repr, DecidableEq

/-- The `original_html` entry of a structure dict, when present. -/
def SplitStructure.originalHtml? : SplitStructure → Option String
  | .empty => none
  | .full _ _ _ _ o => some o
  | .fallback o => some o

/-- `extract_and_preserve_html` (lines 42-85). -/
def extractAndPreserveHtml (parse : String → Option ParsedHtml)
    (htmlContent : String) : String × SplitStructure :=
  if htmlContent = "" then ("", .empty)
  else
    match parse htmlContent with
    | some p => (p.text, .full p.images p.links p.hasLists p.hasHeadings htmlContent)
    | none => (htmlContent, .fallback htmlContent)

/-! ## PrestaShop field values and `extract_content`

JSON-decoded field values are strings, integers, lists or dicts.  Paths on
which the Python code would raise (attribute errors on values of an
unexpected shape) are `Except.error ()`. -/

/-- A loosely-shaped PrestaShop payload value. -/
inductive PValue where
  | str : String → PValue
  | int : Int → PValue
  | list : List PValue → PValue
  | dict : List (String × PValue) → PValue
deriving Repr

/-- Python truthiness of a payload value. -/
def pyTruthy : PValue → Bool
  | .str s => s ≠ ""
  | .int n => n ≠ 0
  | .list l => !l.isEmpty
  | .dict d => !d.isEmpty

/-- Dict lookup (`d[k]` / `d.get(k)`); dict keys are unique in the payload,
first match. -/
def plookup (k : String) : List (String × PValue) → Option PValue
  | [] => none
  | (k', v) :: rest => if k' = k then some v else plookup k rest

/-- `str(v)` rendering of a non-string value (an approximation of Python
repr that ignores escaping; only reachable on dicts lacking a `value`
key). -/
def pyReprV : PValue → String
  | .str s => apos ++ s ++ apos
  | .int n => toString n
  | .list l =>
    "[" ++ String.intercalate ", " (l.attach.map (fun x => pyReprV x.1)) ++ "]"
  | .dict d =>
    "\x7b" ++
      String.intercalate ", "
        (d.attach.map (fun kv => apos ++ kv.1.1 ++ apos ++ ": " ++ pyReprV kv.1.2)) ++
      "\x7d"
decreasing_by
  · have := List.sizeOf_lt_of_mem x.2
    simp only [PValue.list.sizeOf_spec]
    omega
  · have h1 := List.sizeOf_lt_of_mem kv.2
    have h2 : sizeOf kv.1.2 < sizeOf kv.1 := by
      obtain ⟨⟨a, b⟩, hm⟩ := kv
      simp
    simp only [PValue.dict.sizeOf_spec]
    omega

/-- `str(x)` as used in f-strings (`None` included). -/
def pyStrOfOpt : Option PValue → String
  | none => "None"
  | some (.str s) => s
  | some (.int n) => toString n
  | some v => pyReprV v

/-- `extract_content` (lines 236-254).  The result is the Python value the
function returns (not necessarily a string); `error` marks the one raising
path (`languages[0].get` on a non-dict head). -/
def extractContent : PValue → Except Unit PValue
  | .dict d =>
    match plookup "language" d with
    | some langs =>
      match langs with
      | .list [] => .ok (.str "")
      | .list (x :: _) =>
        match x with
        | .dict d0 => .ok ((plookup "value" d0).getD (.str ""))
        | _ => .error ()
      | .dict dd => .ok ((plookup "value" dd).getD (.str ""))
      | _ => .ok (.str "")
    | none => .ok ((plookup "value" d).getD (.str (pyReprV (.dict d))))
  | .list [] => .ok (.str "")
  | .list (x :: _) => .ok x
  | .str s => .ok (.str s)
  | .int n => .ok (.str (if n = 0 then "" else toString n))

/-! ## `process_item` -/

/-- A catalog item record (a JSON dict). -/
def PItem := List (String × PValue)

/-- The per-item `seo_stats` dict. -/
structure SeoStats where
  fieldsRewritten : Nat
  totalKeywordsAdded : Nat
  htmlStructureImproved : Nat
deriving Repr, DecidableEq

/-- One `rewrite_data` record (lines 318-327). -/
structure FieldRewrite where
  field : String
  fieldName : String
  originalContent : String
  rewrittenContent : String
  originalTextOnly : String
  rewrittenTextOnly : String
  stats : Option StatsRec
  keywords : List (String × Nat)
deriving Repr, DecidableEq

/-- The per-item result dict (lines 265-276). -/
structure ItemResult where
  id : Option PValue
  name : String
  type : String
  hasBeenRewritten : Bool
  rewrites : List FieldRewrite
  seoStats : SeoStats
deriving Repr

/-- `total_keywords` added for one field: the keyword sum when the stats
dict carries a truthy (non-empty) `keywords_integrated` entry. -/
def kwAdd : Option StatsRec → Nat
  | none => 0
  | some st => if st.keywordsIntegrated.isEmpty then 0 else sumVals st.keywordsIntegrated

/-- The `keywords` entry of a rewrite record
(`stats.get('keywords_integrated', {})`). -/
def kwOf : Option StatsRec → List (String × Nat)
  | none => []
  | some st => st.keywordsIntegrated

/-- The body of one iteration of the field loop of `process_item`
(lines 284-329), updating the accumulated result. -/
def processField (gen : GenRequest → Option String) (parse : String → Option ParsedHtml)
    (itemName itemType : String) (item : PItem) (skip : List String)
    (field fieldName : String) (acc : ItemResult) : Except Unit ItemResult :=
  if field ∈ skip then .ok acc
  else
    match plookup field item with
    | none => .ok acc
    | some fv =>
      match extractContent fv with
      | .error e => .error e
      | .ok cv =>
        if pyTruthy cv then
          match cv with
          | .str s =>
            if 5 < (pyStrip s).length then
              let _hs := extractAndPreserveHtml parse s
              let rw := rewriteContentWithSeo gen s fieldName itemName itemType
              if rw.1 ≠ s then
                .ok { acc with
                  hasBeenRewritten := true
                  seoStats := { acc.seoStats with
                    fieldsRewritten := acc.seoStats.fieldsRewritten + 1
                    totalKeywordsAdded := acc.seoStats.totalKeywordsAdded + kwAdd rw.2 }
                  rewrites := acc.rewrites ++
                    [{ field := field
                       fieldName := fieldName
                       originalContent := s
                       rewrittenContent := rw.1
                       originalTextOnly := stripTagsS s
                       rewrittenTextOnly := stripTagsS rw.1
                       stats := rw.2
                       keywords := kwOf rw.2 }] }
              else .ok acc
            else .ok acc
          | _ => .error ()
        else .ok acc

/-- The field loop of `process_item`. -/
def processFieldsLoop (gen : GenRequest → Option String) (parse : String → Option ParsedHtml)
    (itemName itemType : String) (item : PItem) (skip : List String) :
    List (String × String) → ItemResult → Except Unit ItemResult
  | [], acc => .ok acc
  | (f, fn) :: rest, acc =>
    match processField gen parse itemName itemType item skip f fn acc with
    | .error e => .error e
    | .ok acc2 => processFieldsLoop gen parse itemName itemType item skip rest acc2

/-- Lines 260-263: the item display name (stripped, truncated name text,
or the `"<type> <id>"` fallback). -/
def itemNameOf (item : PItem) (itemType nameContent : String) : String :=
  if stripTagsS nameContent ≠ "" then (stripTagsS nameContent).take 100
  else itemType ++ " " ++ pyStrOfOpt (plookup "id" item)

/-- The initial per-item result dict (lines 265-276). -/
def initItemResult (item : PItem) (itemType itemName : String) : ItemResult :=
  { id := plookup "id" item
    name := itemName
    type := itemType
    hasBeenRewritten := false
    rewrites := []
    seoStats := { fieldsRewritten := 0, totalKeywordsAdded := 0, htmlStructureImproved := 0 } }

/-- `fields_to_skip` (lines 278-282): only products protect their name. -/
def fieldsToSkip (itemType : String) : List String :=
  if itemType = "product" then ["name"] else []

/-- `process_item` (lines 256-331).  `error` marks the paths where the
Python code raises (non-string name content fed to `re.sub`, or a
truthy non-string field content fed to `.strip()`). -/
def processItem (gen : GenRequest → Option String) (parse : String → Option ParsedHtml)
    (item : PItem) (itemType : String) (fieldsToProcess : List (String × String)) :
    Except Unit ItemResult :=
  match extractContent ((plookup "name" item).getD (.str "")) with
  | .error e => .error e
  | .ok (.str nameContent) =>
    processFieldsLoop gen parse (itemNameOf item itemType nameContent) itemType item
      (fieldsToSkip itemType) fieldsToProcess
      (initItemResult item itemType (itemNameOf item itemType nameContent))
  | .ok _ => .error ()

/-! ## Batch drivers (`run_with_params`, `run_with_specific_ids`)

The PrestaShop HTTP fetchers are oracles (`get_products` and friends as
`Option Nat → List PItem`; the per-id fetch with its silent `except:
continue` as `Int → Option PItem`).  `time.sleep` and the progress
callback have no effect on the results and are omitted. -/

/-- `self.results` (lines 26-40); the constant date and url metadata
strings are omitted. -/
structure RunResults where
  totalProductsAnalyzed : Nat
  totalCategoriesAnalyzed : Nat
  totalManufacturersAnalyzed : Nat
  itemsRewritten : Nat
  seoImprovements : Nat
  products : List ItemResult
  categories : List ItemResult
  manufacturers : List ItemResult
  errors : List String

/-- The freshly initialised results aggregate of `__init__`. -/
def freshResults : RunResults :=
  { totalProductsAnalyzed := 0
    totalCategoriesAnalyzed := 0
    totalManufacturersAnalyzed := 0
    itemsRewritten := 0
    seoImprovements := 0
    products := []
    categories := []
    manufacturers := []
    errors := [] }

/-- The product field mapping (lines 484-489). -/
def productFields : List (String × String) :=
  [("name", "Nom du produit"), ("description_short", "Description courte"),
   ("meta_title", "Meta titre"), ("meta_description", "Meta description")]

/-- The category field mapping (lines 508-514). -/
def categoryFields : List (String × String) :=
  [("name", "Nom de la catégorie"), ("description", "Description"),
   ("additional_description", "Informations complémentaires"),
   ("meta_title", "Balise titre"), ("meta_description", "Meta description")]

/-- The manufacturer field mapping (lines 528-534). -/
def manufacturerFields : List (String × String) :=
  [("name", "Nom"), ("short_description", "Résumé"), ("description", "Description"),
   ("meta_title", "Balise titre"), ("meta_description", "Meta description")]

/-- The per-product loop body: append the item result and bump
`items_rewritten` when the item was rewritten. -/
def prodStep (gen : GenRequest → Option String) (parse : String → Option ParsedHtml)
    (st : RunResults) (p : PItem) : Except Unit RunResults :=
  match processItem gen parse p "product" productFields with
  | .error e => .error e
  | .ok r =>
    .ok { st with
      products := st.products ++ [r]
      itemsRewritten := st.itemsRewritten + (if r.hasBeenRewritten then 1 else 0) }

/-- The per-category loop body. -/
def catStep (gen : GenRequest → Option String) (parse : String → Option ParsedHtml)
    (st : RunResults) (c : PItem) : Except Unit RunResults :=
  match processItem gen parse c "category" categoryFields with
  | .error e => .error e
  | .ok r =>
    .ok { st with
      categories := st.categories ++ [r]
      itemsRewritten := st.itemsRewritten + (if r.hasBeenRewritten then 1 else 0) }

/-- The per-manufacturer loop body. -/
def manStep (gen : GenRequest → Option String) (parse : String → Option ParsedHtml)
    (st : RunResults) (m : PItem) : Except Unit RunResults :=
  match processItem gen parse m "manufacturer" manufacturerFields with
  | .error e => .error e
  | .ok r =>
    .ok { st with
      manufacturers := st.manufacturers ++ [r]
      itemsRewritten := st.itemsRewritten + (if r.hasBeenRewritten then 1 else 0) }

/-- Sequential item loop over a step function. -/
def itemsLoop (step : RunResults → PItem → Except Unit RunResults) :
    List PItem → RunResults → Except Unit RunResults
  | [], st => .ok st
  | p :: rest, st =>
    match step st p with
    | .error e => .error e
    | .ok st2 => itemsLoop step rest st2

/-- The products block of `run_with_params` (lines 479-501). -/
def runProducts (gen : GenRequest → Option String) (parse : String → Option ParsedHtml)
    (products : List PItem) (st : RunResults) : Except Unit RunResults :=
  if products.isEmpty then .ok st
  else itemsLoop (prodStep gen parse) products
    { st with totalProductsAnalyzed := products.length }

/-- The categories block of `run_with_params` (lines 503-521). -/
def runCategories (gen : GenRequest → Option String) (parse : String → Option ParsedHtml)
    (categories : List PItem) (st : RunResults) : Except Unit RunResults :=
  if categories.isEmpty then .ok st
  else itemsLoop (catStep gen parse) categories
    { st with totalCategoriesAnalyzed := categories.length }

/-- The manufacturers block of `run_with_params` (lines 523-541). -/
def runManufacturers (gen : GenRequest → Option String) (parse : String → Option ParsedHtml)
    (manufacturers : List PItem) (st : RunResults) : Except Unit RunResults :=
  if manufacturers.isEmpty then .ok st
  else itemsLoop (manStep gen parse) manufacturers
    { st with totalManufacturersAnalyzed := manufacturers.length }

/-- The `type_map` lookup of `run_with_params` (lines 468-476), default
`"1"`. -/
def choiceOf (elementType : String) : String :=
  if elementType = "Produits" then "1"
  else if elementType = "Catégories" then "2"
  else if elementType = "Marques" then "3"
  else if elementType = "Tout" then "4"
  else "1"

/-- The `type_map` lookup of `run_with_specific_ids` (lines 548-555),
default `"products"`. -/
def idTypeOf (elementType : String) : String :=
  if elementType = "Produits" then "products"
  else if elementType = "Catégories" then "categories"
  else if elementType = "Marques" then "manufacturers"
  else "products"

/-- A conditionally executed driver block (`if choice in [...]:` guarding a
mutation of the results). -/
def condRun (b : Bool) (f : RunResults → Except Unit RunResults) (st : RunResults) :
    Except Unit RunResults :=
  if b then f st else .ok st

/-- `run_with_params` (lines 462-543); `nb_items = 0` means no limit. -/
def runWithParams (getP getC getM : Option Nat → List PItem)
    (gen : GenRequest → Option String) (parse : String → Option ParsedHtml)
    (elementType : String) (nbItems : Nat) (st : RunResults) : Except Unit RunResults :=
  match condRun (choiceOf elementType = "1" || choiceOf elementType = "4")
      (runProducts gen parse (getP (if nbItems = 0 then none else some nbItems))) st with
  | .error e => .error e
  | .ok st1 =>
    match condRun (choiceOf elementType = "2" || choiceOf elementType = "4")
        (runCategories gen parse (getC (if nbItems = 0 then none else some nbItems))) st1 with
    | .error e => .error e
    | .ok st2 =>
      condRun (choiceOf elementType = "3" || choiceOf elementType = "4")
        (runManufacturers gen parse (getM (if nbItems = 0 then none else some nbItems))) st2

/-- `run_with_specific_ids` (lines 545-679); the per-id fetch (with its
silent skip of failed fetches) is `fetch· : Int → Option PItem`. -/
def runWithSpecificIds (fetchP fetchC fetchM : Int → Option PItem)
    (gen : GenRequest → Option String) (parse : String → Option ParsedHtml)
    (elementType : String) (specificIds : List Int) (st : RunResults) :
    Except Unit RunResults :=
  if idTypeOf elementType = "products" then
    runProducts gen parse (specificIds.filterMap fetchP) st
  else if idTypeOf elementType = "categories" then
    runCategories gen parse (specificIds.filterMap fetchC) st
  else if idTypeOf elementType = "manufacturers" then
    runManufacturers gen parse (specificIds.filterMap fetchM) st
  else .ok st

/-! ## Id-list parsing (`parse_id_input`, streamlit_app.py lines 141-164) -/

/-- `s.replace(' ', '')`. -/
def removeSpaces (s : String) : String :=
  String.mk (s.toList.filter (fun c => c ≠ ' '))

/-- Digit-list to number. -/
def digitsToNat (l : List Char) : Option Nat :=
  if !l.isEmpty && l.all Char.isDigit then
    some (l.foldl (fun a c => a * 10 + (c.toNat - 48)) 0)
  else none

/-- Python `int(s)`: optional surrounding whitespace, optional sign, one or
more digits (digit-group underscores are not modelled). -/
def pyInt (s : String) : Option Int :=
  let l := ((s.toList.dropWhile isPySpace).reverse.dropWhile isPySpace).reverse
  match l with
  | '+' :: ds => (digitsToNat ds).map Int.ofNat
  | '-' :: ds => (digitsToNat ds).map (fun n => -(n : Int))
  | ds => (digitsToNat ds).map Int.ofNat

/-- Python `range(a, b)` as a list of integers. -/
def intRange (a b : Int) : List Int :=
  (List.range (b - a).toNat).map (fun i => a + (i : Int))

/-- One iteration of the token loop of `parse_id_input`: malformed tokens
are skipped (reported via `st.warning`, which has no effect on the
result). -/
def idToken (acc : List Int) (part : String) : List Int :=
  if strContains part "-" then
    match pySplit part "-" with
    | [a, b] =>
      match pyInt a, pyInt b with
      | some x, some y => acc ++ intRange x (y + 1)
      | _, _ => acc
    | _ => acc
  else
    match pyInt part with
    | some x => acc ++ [x]
    | none => acc

/-- `parse_id_input`; the final `list(set(ids))` (arbitrary order) is the
finite set of collected ids. -/
def parseIdInput (idInput : String) : Finset Int :=
  if idInput = "" then ∅
  else ((pySplit (removeSpaces idInput) ",").foldl idToken []).toFinset

/-! ## Lemmas about the price-prefix parser -/

theorem pLit_eq {lit l l1 : List Char} (h : pLit lit l = some l1) : l = lit ++ l1 := by
  unfold pLit at h
  split at h
  · next hp =>
    obtain ⟨t, rfl⟩ := List.isPrefixOf_iff_prefix.mp hp
    rw [List.drop_left] at h
    cases h
    rfl
  · cases h

theorem pChar_eq {c : Char} {l t : List Char} (h : pChar c l = some t) : l = c :: t := by
  cases l with
  | nil => simp [pChar] at h
  | cons x rest =>
    simp only [pChar] at h
    split at h
    · next hx =>
      cases h
      rw [hx]
    · cases h

/-- The whole of `priceTail`'s output is a suffix of the input that starts
right after the `Prix` literal. -/
theorem priceTail_decomp {l rest : List Char} (h : priceTail l = some rest) :
    ∃ mid, l = "Prix".toList ++ (mid ++ rest) := by
  unfold priceTail at h
  split at h
  · cases h
  · next l1 h1 =>
    split at h
    · cases h
    · next l3 h2 =>
      split at h
      · cases h
      · split at h
        · cases h
        · next l7 h3 =>
          split at h
          · cases h
          · next l9 h4 =>
            cases h
            have s1 : l9.dropWhile isPySpace <:+ l9 := List.dropWhile_suffix _
            have s2 : l9 <:+ l7.dropWhile isPySpace := by
              rw [pChar_eq h4]; exact ⟨['|'], rfl⟩
            have s3 : l7.dropWhile isPySpace <:+ l7 := List.dropWhile_suffix _
            have s4 : l7 <:+ ((l3.dropWhile isPySpace).dropWhile isDigitComma).dropWhile isPySpace := by
              rw [pChar_eq h3]; exact ⟨['€'], rfl⟩
            have s5 : ((l3.dropWhile isPySpace).dropWhile isDigitComma).dropWhile isPySpace <:+
                (l3.dropWhile isPySpace).dropWhile isDigitComma := List.dropWhile_suffix _
            have s6 : (l3.dropWhile isPySpace).dropWhile isDigitComma <:+ l3.dropWhile isPySpace :=
              List.dropWhile_suffix _
            have s7 : l3.dropWhile isPySpace <:+ l3 := List.dropWhile_suffix _
            have s8 : l3 <:+ l1.dropWhile isPySpace := by
              rw [pChar_eq h2]; exact ⟨[':'], rfl⟩
            have s9 : l1.dropWhile isPySpace <:+ l1 := List.dropWhile_suffix _
            have : l9.dropWhile isPySpace <:+ l1 :=
              (((((((s1.trans s2).trans s3).trans s4).trans s5).trans s6).trans s7).trans s8).trans s9
            obtain ⟨mid, hmid⟩ := this
            exact ⟨mid, by rw [pLit_eq h1, hmid]⟩

/-- When the price pattern matches, the captured group concatenated with
the remainder is the whole input, and the group is non-empty. -/
theorem priceSplit_decomp {content p r : String}
    (h : priceSplit content = some (p, r)) : p ++ r = content ∧ p ≠ "" := by
  unfold priceSplit at h
  cases ht : priceTail content.toList with
  | none => rw [ht] at h; cases h
  | some rest =>
    rw [ht] at h
    obtain ⟨mid, hdec⟩ := priceTail_decomp ht
    rw [Option.some.injEq, Prod.mk.injEq] at h
    obtain ⟨hp, hr⟩ := h
    have hassoc : content.toList = ("Prix".toList ++ mid) ++ rest := by
      rw [hdec, List.append_assoc]
    have hlen : content.toList.length - rest.length = ("Prix".toList ++ mid).length := by
      rw [hassoc, List.length_append]
      omega
    have htake : content.toList.take (content.toList.length - rest.length) =
        "Prix".toList ++ mid := by
      rw [hlen]
      conv_lhs => rw [hassoc]
      exact List.take_left _ _
    constructor
    · rw [← hp, ← hr, htake]
      calc String.mk ("Prix".toList ++ mid) ++ String.mk rest
          = String.mk (("Prix".toList ++ mid) ++ rest) := rfl
        _ = String.mk content.toList := by rw [← hassoc]
        _ = content := rfl
    · rw [← hp, htake]
      intro hcon
      have : ("Prix".toList ++ mid) = ([] : List Char) := congrArg String.data hcon
      simp at this

/-- `reattach` with a non-empty left part is concatenation. -/
theorem reattach_ne {p s : String} (hp : p ≠ "") : reattach p s = p ++ s := by
  simp [reattach, hp]

/-- A string literally starts with its own left factor. -/
theorem strStartsWith_append (p s : String) : strStartsWith (p ++ s) p = true := by
  unfold strStartsWith
  apply List.isPrefixOf_iff_prefix.mpr
  exact ⟨s.toList, (String.data_append p s).symm⟩

/-- `wrapParagraphs` does nothing for a field that is not long-form. -/
theorem wrapParagraphs_meta (s : String) : wrapParagraphs "Meta description" s = s := rfl

/-- When a price prefix is extracted, `priceExtract` yields the captured
group and the stripped remainder. -/
theorem priceExtract_of_split {content p r : String}
    (h : priceSplit content = some (p, r)) :
    priceExtract "Meta description" content = (p, pyStrip r) := by
  unfold priceExtract
  rw [if_pos rfl, h]

/-- When `priceExtract` captures no prefix, the content is passed through
unchanged. -/
theorem priceExtract_empty (fieldType content : String)
    (h : (priceExtract fieldType content).1 = "") :
    (priceExtract fieldType content).2 = content := by
  by_cases hft : fieldType = "Meta description"
  · subst hft
    cases hps : priceSplit content with
    | none =>
      unfold priceExtract
      rw [if_pos rfl, hps]
    | some pr =>
      obtain ⟨p, r⟩ := pr
      rw [priceExtract_of_split hps] at h
      exact absurd h (priceSplit_decomp hps).2
  · unfold priceExtract
    rw [if_neg hft]

/-! ## C1: price prefix round trip -/

/-- C1: for every meta-description input matching the leading price-prefix
pattern, the captured prefix is a literal leading substring of the input
(`p ++ r = content`), the content payload handed to the generation call is
exactly the remainder after removing that captured prefix (so the prefix is
excluded from it by construction), and the output of
`rewrite_content_with_seo` starts with the prefix byte-identically, on
every path of the function. -/
theorem price_pfx_roundtrip (gen : GenRequest → Option String)
    (content itemName itemType p r : String)
    (h : priceSplit content = some (p, r)) :
    p ++ r = content ∧
    (rewriteRequest content "Meta description" itemName itemType).contentPayload = pyStrip r ∧
    strStartsWith (rewriteContentWithSeo gen content "Meta description" itemName itemType).1 p
      = true := by
  obtain ⟨hpr, hne⟩ := priceSplit_decomp h
  have hpe := priceExtract_of_split h
  refine ⟨hpr, ?_, ?_⟩
  · simp only [rewriteRequest, hpe]
  · unfold rewriteContentWithSeo
    split
    · rw [← hpr]
      exact strStartsWith_append p r
    · cases hg : gen (rewriteRequest content "Meta description" itemName itemType) with
      | none =>
        simp only [hpe, hg]
        rw [reattach_ne hne]
        exact strStartsWith_append _ _
      | some resp =>
        simp only [hpe, hg]
        rw [wrapParagraphs_meta, reattach_ne hne]
        exact strStartsWith_append _ _

/-- Witness for C1 at a concrete meta description. -/
theorem price_pfx_roundtrip_witness :
    "Prix : 12,90 € | " ++ "Batterie 18650 compatible." =
        "Prix : 12,90 € | Batterie 18650 compatible." ∧
    (rewriteRequest "Prix : 12,90 € | Batterie 18650 compatible." "Meta description" "n"
        "product").contentPayload = pyStrip "Batterie 18650 compatible." ∧
    strStartsWith
      (rewriteContentWithSeo (fun _ => some "Texte.")
        "Prix : 12,90 € | Batterie 18650 compatible." "Meta description" "n" "product").1
      "Prix : 12,90 € | " = true :=
  price_pfx_roundtrip (fun _ => some "Texte.")
    "Prix : 12,90 € | Batterie 18650 compatible." "n" "product"
    "Prix : 12,90 € | " "Batterie 18650 compatible." (by decide)

/-! ## C3: behaviour when the generation call fails -/

/-- Counterexample to C3 as stated: on a meta description with a price
prefix and trailing whitespace, the failure path returns the prefix plus
the *stripped* remainder, which is not the original content. -/
theorem rewrite_failure_not_original :
    (rewriteContentWithSeo (fun _ => none) "Prix : 1,50 € | ab cd ef  " "Meta description"
      "n" "product").1 = "Prix : 1,50 € | ab cd ef" ∧
    (rewriteContentWithSeo (fun _ => none) "Prix : 1,50 € | ab cd ef  " "Meta description"
      "n" "product").2 = none ∧
    "Prix : 1,50 € | ab cd ef" ≠ "Prix : 1,50 € | ab cd ef  " := by
  refine ⟨by decide, rfl, by decide⟩

/-- C3 (amended): when the generation call fails on content that passes the
length gate, the function returns, with empty stats, the price prefix
followed by the stripped remainder if a prefix was extracted, and the
original content unchanged otherwise; the failure yields a value rather
than propagating. -/
theorem rewrite_failure_fallback (gen : GenRequest → Option String)
    (content fieldType itemName itemType : String)
    (h1 : content ≠ "") (h2 : 10 ≤ (pyStrip content).length)
    (hfail : gen (rewriteRequest content fieldType itemName itemType) = none) :
    rewriteContentWithSeo gen content fieldType itemName itemType =
      (reattach (priceExtract fieldType content).1 (priceExtract fieldType content).2, none) ∧
    ((priceExtract fieldType content).1 = "" →
      rewriteContentWithSeo gen content fieldType itemName itemType = (content, none)) := by
  have hcond : (decide (content = "") || decide ((pyStrip content).length < 10)) = false := by
    simp [h1, Nat.not_lt.mpr h2]
  have hmain : rewriteContentWithSeo gen content fieldType itemName itemType =
      (reattach (priceExtract fieldType content).1 (priceExtract fieldType content).2, none) := by
    unfold rewriteContentWithSeo
    rw [hcond, if_neg Bool.false_ne_true]
    simp only [hfail]
  refine ⟨hmain, fun hz => ?_⟩
  rw [hmain, hz, priceExtract_empty fieldType content hz]
  rfl

/-- Witness for C3 (amended) at a concrete input with a price prefix. -/
theorem rewrite_failure_fallback_witness :
    rewriteContentWithSeo (fun _ => none) "Prix : 1,50 € | ab cd ef  " "Meta description"
        "n" "product" =
      (reattach (priceExtract "Meta description" "Prix : 1,50 € | ab cd ef  ").1
        (priceExtract "Meta description" "Prix : 1,50 € | ab cd ef  ").2, none) :=
  (rewrite_failure_fallback (fun _ => none) "Prix : 1,50 € | ab cd ef  " "Meta description"
    "n" "product" (by decide) (by decide) rfl).1

/-! ## C5: short content is skipped -/

/-- C5: empty content, or content whose trimmed length is below 10, is
returned unchanged with empty stats by the rewrite step; and the item
processor's field loop leaves its accumulator untouched (never invoking
the rewrite step) on a string field whose trimmed length is at most 5. -/
theorem short_content_skipped :
    (∀ (gen : GenRequest → Option String) (content fieldType itemName itemType : String),
      content = "" ∨ (pyStrip content).length < 10 →
      rewriteContentWithSeo gen content fieldType itemName itemType = (content, none)) ∧
    (∀ (gen : GenRequest → Option String) (parse : String → Option ParsedHtml)
      (itemName itemType : String) (item : PItem) (skip : List String)
      (field fieldName s : String) (acc : ItemResult),
      field ∉ skip → plookup field item = some (.str s) → (pyStrip s).length ≤ 5 →
      processField gen parse itemName itemType item skip field fieldName acc = .ok acc) := by
  constructor
  · intro gen content fieldType itemName itemType hshort
    unfold rewriteContentWithSeo
    have : (decide (content = "") || decide ((pyStrip content).length < 10)) = true := by
      rcases hshort with h | h <;> simp [h]
    rw [this, if_pos rfl]
  · intro gen parse itemName itemType item skip field fieldName s acc hskip hlook hlen
    unfold processField
    rw [if_neg hskip, hlook]
    by_cases hs : s = ""
    · subst hs
      rfl
    · simp [extractContent, pyTruthy, hs, Nat.not_lt.mpr hlen]

/-- Witness for C5 at concrete short contents. -/
theorem short_content_skipped_witness :
    rewriteContentWithSeo (fun _ => some "Réponse du modèle.") "court" "Description" "n"
        "product" = ("court", none) ∧
    processField (fun _ => some "Réponse du modèle.") (fun _ => none) "n" "product"
        [("meta_title", .str "abcde")] [] "meta_title" "Meta titre"
        { id := none, name := "n", type := "product", hasBeenRewritten := false,
          rewrites := [],
          seoStats := { fieldsRewritten := 0, totalKeywordsAdded := 0,
                        htmlStructureImproved := 0 } } =
      Except.ok
        { id := none, name := "n", type := "product", hasBeenRewritten := false,
          rewrites := [],
          seoStats := { fieldsRewritten := 0, totalKeywordsAdded := 0,
                        htmlStructureImproved := 0 } } :=
  ⟨short_content_skipped.1 (fun _ => some "Réponse du modèle.") "court" "Description" "n"
      "product" (Or.inr (by decide)),
   short_content_skipped.2 (fun _ => some "Réponse du modèle.") (fun _ => none) "n" "product"
      [("meta_title", .str "abcde")] [] "meta_title" "Meta titre" "abcde"
      { id := none, name := "n", type := "product", hasBeenRewritten := false,
        rewrites := [],
        seoStats := { fieldsRewritten := 0, totalKeywordsAdded := 0,
                      htmlStructureImproved := 0 } }
      (by simp) rfl (by decide)⟩

/-! ## C7: the brand-preservation flag -/

/-- The property C7 states of one input/output pair of the rewrite step:
whenever a stats dict is produced, its brand flag is the exact-case
presence of the brand phrase in the rewritten content if the phrase was
detected (case-insensitively) in the original, and the unknown value
`none` otherwise. -/
def brandStatsOk (content : String) : String × Option StatsRec → Prop
  | (_, none) => True
  | (out, some st) =>
    st.brandPreserved =
      if brandDetect content then some (strContains out brandPhrase) else none

/-- C7: every stats dict produced by `rewrite_content_with_seo` carries the
brand-preserved flag described by `brandStatsOk`. -/
theorem brand_flag_correct (gen : GenRequest → Option String)
    (content fieldType itemName itemType : String) :
    brandStatsOk content (rewriteContentWithSeo gen content fieldType itemName itemType) := by
  unfold rewriteContentWithSeo
  split
  · trivial
  · cases hg : gen (rewriteRequest content fieldType itemName itemType) with
    | none => simp only [hg]; trivial
    | some resp =>
      simp only [hg]
      simp [brandStatsOk, mkStats]

/-! ## C6: paragraph re-wrapping -/

/-- C6: on a long-form field, a generated text with no markup and exactly
seven `". "`-separated sentences is wrapped into exactly three paragraph
blocks grouping the re-terminated sentences 3, 3 and 1; a text with three
or fewer sentences is wrapped as a single paragraph instead. -/
theorem paragraph_rewrap_spec (s0 s1 s2 s3 s4 s5 s6 text : String)
    (h7 : pySplit text ". " = [s0, s1, s2, s3, s4, s5, s6])
    (hnm : strContains text "<" = false) :
    (wrapParagraphs "Description" text =
      String.intercalate "\n"
        ["<p>" ++ String.intercalate " " [pterm s0, pterm s1, pterm s2] ++ "</p>",
         "<p>" ++ String.intercalate " " [pterm s3, pterm s4, pterm s5] ++ "</p>",
         "<p>" ++ String.intercalate " " [pterm s6] ++ "</p>"]) ∧
    (wrapParagraphs "Description courte" text =
      String.intercalate "\n"
        ["<p>" ++ String.intercalate " " [pterm s0, pterm s1, pterm s2] ++ "</p>",
         "<p>" ++ String.intercalate " " [pterm s3, pterm s4, pterm s5] ++ "</p>",
         "<p>" ++ String.intercalate " " [pterm s6] ++ "</p>"]) ∧
    (∀ t : String, (pySplit t ". ").length ≤ 3 → strContains t "<" = false →
      wrapParagraphs "Description" t = "<p>" ++ t ++ "</p>" ∧
      wrapParagraphs "Description courte" t = "<p>" ++ t ++ "</p>") := by
  refine ⟨?_, ?_, ?_⟩
  · simp [wrapParagraphs, h7, hnm, groupPs]
  · simp [wrapParagraphs, h7, hnm, groupPs]
  · intro t hlen hnm2
    have hgt : ¬((pySplit t ". ").length > 3) := by omega
    constructor
    · simp [wrapParagraphs, hnm2, hgt]
    · simp [wrapParagraphs, hnm2, hgt]

/-- Witness for C6 at a concrete seven-sentence text. -/
theorem paragraph_rewrap_spec_witness :
    wrapParagraphs "Description" "Aa. Bb. Cc. Dd. Ee. Ff. Gg" =
      String.intercalate "\n"
        ["<p>" ++ String.intercalate " " [pterm "Aa", pterm "Bb", pterm "Cc"] ++ "</p>",
         "<p>" ++ String.intercalate " " [pterm "Dd", pterm "Ee", pterm "Ff"] ++ "</p>",
         "<p>" ++ String.intercalate " " [pterm "Gg"] ++ "</p>"] :=
  (paragraph_rewrap_spec "Aa" "Bb" "Cc" "Dd" "Ee" "Ff" "Gg" "Aa. Bb. Cc. Dd. Ee. Ff. Gg"
    (by decide) (by decide)).1

/-! ## C2: the HTML splitter round trip -/

/-- Counterexample to C2 as stated: for the empty input the structure dict
is `{}`, which has no `original_html` entry at all, so reading it cannot
reproduce the input. -/
theorem extract_html_empty_no_roundtrip :
    (extractAndPreserveHtml (fun _ => none) "").2.originalHtml? = none ∧
    (extractAndPreserveHtml (fun _ => none) "").2.originalHtml? ≠ some "" :=
  ⟨rfl, by decide⟩

/-- C2 (amended): for every non-empty input — malformed markup included —
the structure dict's `original_html` entry reproduces the input exactly,
and on a parse failure the function returns the input verbatim as the
plain text together with a structure holding only `original_html` (no
exception escapes); for the empty input the function returns `("", {})`
with no `original_html` entry. -/
theorem extract_html_roundtrip (parse : String → Option ParsedHtml) (html : String)
    (h : html ≠ "") :
    (extractAndPreserveHtml parse html).2.originalHtml? = some html ∧
    (parse html = none → extractAndPreserveHtml parse html = (html, .fallback html)) := by
  unfold extractAndPreserveHtml
  rw [if_neg h]
  cases hp : parse html with
  | none => exact ⟨rfl, fun _ => rfl⟩
  | some p =>
    refine ⟨rfl, fun hc => ?_⟩
    cases hc

/-- Witness for C2 (amended) at a malformed fragment with a failing
parser. -/
theorem extract_html_roundtrip_witness :
    (extractAndPreserveHtml (fun _ => none) "<p>x").2.originalHtml? = some "<p>x" ∧
    extractAndPreserveHtml (fun _ => none) "<p>x" = ("<p>x", .fallback "<p>x") :=
  ⟨(extract_html_roundtrip (fun _ => none) "<p>x" (by decide)).1,
   (extract_html_roundtrip (fun _ => none) "<p>x" (by decide)).2 rfl⟩

/-! ## Shape of one field-loop iteration (shared by C4, C8, C10) -/

/-- One iteration of the field loop either leaves the accumulator alone or
appends exactly one rewrite record (for a non-skipped field), bumping
`fields_rewritten` and `has_been_rewritten` alongside. -/
theorem processField_cases {gen : GenRequest → Option String}
    {parse : String → Option ParsedHtml} {n t : String} {item : PItem}
    {skip : List String} {f fn : String} {acc acc' : ItemResult}
    (h : processField gen parse n t item skip f fn acc = .ok acc') :
    acc' = acc ∨
    (f ∉ skip ∧ ∃ fr : FieldRewrite, fr.field = f ∧
      acc' = { acc with
        hasBeenRewritten := true
        seoStats := { acc.seoStats with
          fieldsRewritten := acc.seoStats.fieldsRewritten + 1
          totalKeywordsAdded := acc.seoStats.totalKeywordsAdded + kwAdd fr.stats }
        rewrites := acc.rewrites ++ [fr] }) := by
  unfold processField at h
  split at h
  · cases h
    exact Or.inl rfl
  · next h1 =>
    split at h
    · cases h
      exact Or.inl rfl
    · split at h
      · cases h
      · split at h
        · split at h
          · next s =>
            split at h
            · simp only [] at h
              split at h
              · cases h
                exact Or.inr ⟨h1, _, rfl, rfl⟩
              · cases h
                exact Or.inl rfl
            · cases h
              exact Or.inl rfl
          · cases h
        · cases h
          exact Or.inl rfl

/-! ## C10: per-item result consistency -/

/-- The property C10 states of a `process_item` outcome: the
`fields_rewritten` counter equals the number of rewrite records, and
`has_been_rewritten` holds exactly when at least one record exists. -/
def itemConsistent : Except Unit ItemResult → Prop
  | .error _ => True
  | .ok r =>
    r.seoStats.fieldsRewritten = r.rewrites.length ∧
    (r.hasBeenRewritten = true ↔ r.rewrites ≠ [])

/-- The field loop preserves the C10 consistency of its accumulator. -/
theorem processFieldsLoop_consistent {gen : GenRequest → Option String}
    {parse : String → Option ParsedHtml} {n t : String} {item : PItem}
    {skip : List String} :
    ∀ (fields : List (String × String)) (acc r : ItemResult),
      processFieldsLoop gen parse n t item skip fields acc = .ok r →
      (acc.seoStats.fieldsRewritten = acc.rewrites.length ∧
        (acc.hasBeenRewritten = true ↔ acc.rewrites ≠ [])) →
      (r.seoStats.fieldsRewritten = r.rewrites.length ∧
        (r.hasBeenRewritten = true ↔ r.rewrites ≠ [])) := by
  intro fields
  induction fields with
  | nil =>
    intro acc r h hacc
    cases h
    exact hacc
  | cons p rest ih =>
    obtain ⟨f, fn⟩ := p
    intro acc r h hacc
    unfold processFieldsLoop at h
    split at h
    · cases h
    · next acc2 h2 =>
      refine ih acc2 r h ?_
      rcases processField_cases h2 with heq | ⟨-, fr, -, heq⟩
      · rw [heq]
        exact hacc
      · rw [heq]
        constructor
        · simp [hacc.1]
        · simp

/-- C10: every item result produced by `process_item` has
`seo_stats.fields_rewritten` equal to the number of rewrite records, and
`has_been_rewritten` true exactly when that list is non-empty. -/
theorem item_result_consistency (gen : GenRequest → Option String)
    (parse : String → Option ParsedHtml) (item : PItem) (itemType : String)
    (fields : List (String × String)) :
    itemConsistent (processItem gen parse item itemType fields) := by
  cases hpi : processItem gen parse item itemType fields with
  | error e => simp [itemConsistent]
  | ok r =>
    simp only [itemConsistent]
    unfold processItem at hpi
    split at hpi
    · cases hpi
    · next nameContent =>
      exact processFieldsLoop_consistent fields _ r hpi (by simp [initItemResult])
    · cases hpi

/-! ## C8: the name field of products is never rewritten -/

/-- The fields of the rewrite records of a `process_item` outcome (none on
the raising paths, which produce no records). -/
def rewFields : Except Unit ItemResult → List String
  | .error _ => []
  | .ok r => r.rewrites.map (fun fr => fr.field)

/-- The field loop never adds a record for a skipped field. -/
theorem processFieldsLoop_skip {gen : GenRequest → Option String}
    {parse : String → Option ParsedHtml} {n t : String} {item : PItem}
    {skip : List String} {x : String} (hx : x ∈ skip) :
    ∀ (fields : List (String × String)) (acc r : ItemResult),
      processFieldsLoop gen parse n t item skip fields acc = .ok r →
      x ∉ acc.rewrites.map (fun fr => fr.field) →
      x ∉ r.rewrites.map (fun fr => fr.field) := by
  intro fields
  induction fields with
  | nil =>
    intro acc r h hacc
    cases h
    exact hacc
  | cons p rest ih =>
    obtain ⟨f, fn⟩ := p
    intro acc r h hacc
    unfold processFieldsLoop at h
    split at h
    · cases h
    · next acc2 h2 =>
      refine ih acc2 r h ?_
      rcases processField_cases h2 with heq | ⟨hnf, fr, hfr, heq⟩
      · rw [heq]
        exact hacc
      · rw [heq]
        simp only [List.map_append, List.mem_append]
        rintro (hin | hone)
        · exact hacc hin
        · simp [hfr] at hone
          exact hnf (hone ▸ hx)

/-- C8: `process_item` never produces a rewrite record for the `name`
field of a product, while for categories and manufacturers the name field
is processed like any other (witnessed by concrete runs whose only record
is the name field). -/
theorem product_name_never_rewritten :
    (∀ (gen : GenRequest → Option String) (parse : String → Option ParsedHtml)
      (item : PItem) (fields : List (String × String)),
      "name" ∉ rewFields (processItem gen parse item "product" fields)) ∧
    rewFields (processItem (fun _ => some "Nouveau contenu pour les tests.") (fun _ => none)
      [("id", PValue.int 7), ("name", PValue.str "Ancienne description de la categorie")]
      "category" categoryFields) = ["name"] ∧
    rewFields (processItem (fun _ => some "Nouveau contenu pour les tests.") (fun _ => none)
      [("id", PValue.int 8), ("name", PValue.str "Ancienne description de la marque")]
      "manufacturer" manufacturerFields) = ["name"] := by
  refine ⟨?_, rfl, rfl⟩
  intro gen parse item fields
  cases hpi : processItem gen parse item "product" fields with
  | error e => simp [rewFields]
  | ok r =>
    simp only [rewFields]
    unfold processItem at hpi
    split at hpi
    · cases hpi
    · next nameContent =>
      exact processFieldsLoop_skip (x := "name") (by decide) fields _ r hpi (by simp [initItemResult])
    · cases hpi

/-! ## C4: the `items_rewritten` invariant of the batch drivers -/

/-- The number of item results flagged as rewritten in a collection. -/
def countRewritten (l : List ItemResult) : Nat :=
  (l.filter (fun r => r.hasBeenRewritten)).length

/-- The run-results invariant: `items_rewritten` equals the count of
results with `has_been_rewritten = true` across the three collections. -/
def resultsInv (st : RunResults) : Prop :=
  st.itemsRewritten =
    countRewritten st.products + countRewritten st.categories + countRewritten st.manufacturers

theorem countRewritten_append (l : List ItemResult) (r : ItemResult) :
    countRewritten (l ++ [r]) = countRewritten l + (if r.hasBeenRewritten then 1 else 0) := by
  unfold countRewritten
  rw [List.filter_append, List.length_append]
  cases hr : r.hasBeenRewritten <;> simp [hr]

theorem prodStep_inv {gen : GenRequest → Option String} {parse : String → Option ParsedHtml}
    {st st' : RunResults} {p : PItem} (hinv : resultsInv st)
    (h : prodStep gen parse st p = .ok st') : resultsInv st' := by
  unfold prodStep at h
  split at h
  · cases h
  · next r hr =>
    cases h
    unfold resultsInv at hinv ⊢
    dsimp only
    rw [countRewritten_append]
    omega

theorem catStep_inv {gen : GenRequest → Option String} {parse : String → Option ParsedHtml}
    {st st' : RunResults} {c : PItem} (hinv : resultsInv st)
    (h : catStep gen parse st c = .ok st') : resultsInv st' := by
  unfold catStep at h
  split at h
  · cases h
  · next r hr =>
    cases h
    unfold resultsInv at hinv ⊢
    dsimp only
    rw [countRewritten_append]
    omega

theorem manStep_inv {gen : GenRequest → Option String} {parse : String → Option ParsedHtml}
    {st st' : RunResults} {m : PItem} (hinv : resultsInv st)
    (h : manStep gen parse st m = .ok st') : resultsInv st' := by
  unfold manStep at h
  split at h
  · cases h
  · next r hr =>
    cases h
    unfold resultsInv at hinv ⊢
    dsimp only
    rw [countRewritten_append]
    omega

theorem itemsLoop_inv {step : RunResults → PItem → Except Unit RunResults}
    (hstep : ∀ {st p st'}, resultsInv st → step st p = .ok st' → resultsInv st') :
    ∀ (items : List PItem) {st st' : RunResults},
      resultsInv st → itemsLoop step items st = .ok st' → resultsInv st' := by
  intro items
  induction items with
  | nil =>
    intro st st' hinv h
    cases h
    exact hinv
  | cons p rest ih =>
    intro st st' hinv h
    unfold itemsLoop at h
    split at h
    · cases h
    · next st2 h2 => exact ih (hstep hinv h2) h

theorem runProducts_inv {gen : GenRequest → Option String} {parse : String → Option ParsedHtml}
    {items : List PItem} {st st' : RunResults} (hinv : resultsInv st)
    (h : runProducts gen parse items st = .ok st') : resultsInv st' := by
  unfold runProducts at h
  split at h
  · cases h
    exact hinv
  · refine itemsLoop_inv (fun hi hh => prodStep_inv hi hh) items ?_ h
    exact hinv

theorem runCategories_inv {gen : GenRequest → Option String} {parse : String → Option ParsedHtml}
    {items : List PItem} {st st' : RunResults} (hinv : resultsInv st)
    (h : runCategories gen parse items st = .ok st') : resultsInv st' := by
  unfold runCategories at h
  split at h
  · cases h
    exact hinv
  · refine itemsLoop_inv (fun hi hh => catStep_inv hi hh) items ?_ h
    exact hinv

theorem runManufacturers_inv {gen : GenRequest → Option String} {parse : String → Option ParsedHtml}
    {items : List PItem} {st st' : RunResults} (hinv : resultsInv st)
    (h : runManufacturers gen parse items st = .ok st') : resultsInv st' := by
  unfold runManufacturers at h
  split at h
  · cases h
    exact hinv
  · refine itemsLoop_inv (fun hi hh => manStep_inv hi hh) items ?_ h
    exact hinv

/-- A conditionally executed block preserves the invariant whenever its
body does. -/
theorem condRun_inv {b : Bool} {f : RunResults → Except Unit RunResults} {st st' : RunResults}
    (hf : ∀ {s s' : RunResults}, resultsInv s → f s = .ok s' → resultsInv s')
    (hinv : resultsInv st) (h : condRun b f st = .ok st') : resultsInv st' := by
  unfold condRun at h
  cases b
  · rw [if_neg Bool.false_ne_true] at h
    cases h
    exact hinv
  · rw [if_pos rfl] at h
    exact hf hinv h

/-- C4: the freshly initialised results aggregate satisfies the
`items_rewritten` invariant, and both batch drivers preserve it in every
mode and for every item set, so after any run `items_rewritten` equals the
count of results with `has_been_rewritten = true` across the products,
categories and manufacturers collections. -/
theorem items_rewritten_invariant :
    resultsInv freshResults ∧
    (∀ (getP getC getM : Option Nat → List PItem) (gen : GenRequest → Option String)
      (parse : String → Option ParsedHtml) (elementType : String) (nbItems : Nat)
      (st st' : RunResults), resultsInv st →
      runWithParams getP getC getM gen parse elementType nbItems st = .ok st' →
      resultsInv st') ∧
    (∀ (fetchP fetchC fetchM : Int → Option PItem) (gen : GenRequest → Option String)
      (parse : String → Option ParsedHtml) (elementType : String) (ids : List Int)
      (st st' : RunResults), resultsInv st →
      runWithSpecificIds fetchP fetchC fetchM gen parse elementType ids st = .ok st' →
      resultsInv st') := by
  refine ⟨by simp [resultsInv, freshResults, countRewritten], ?_, ?_⟩
  · intro getP getC getM gen parse elementType nbItems st st' hinv h
    unfold runWithParams at h
    split at h
    · cases h
    · next st1 h1 =>
      have hinv1 : resultsInv st1 := condRun_inv (fun hi hh => runProducts_inv hi hh) hinv h1
      split at h
      · cases h
      · next st2 h2 =>
        have hinv2 : resultsInv st2 := condRun_inv (fun hi hh => runCategories_inv hi hh) hinv1 h2
        exact condRun_inv (fun hi hh => runManufacturers_inv hi hh) hinv2 h
  · intro fetchP fetchC fetchM gen parse elementType ids st st' hinv h
    unfold runWithSpecificIds at h
    split at h
    · exact runProducts_inv hinv h
    · split at h
      · exact runCategories_inv hinv h
      · split at h
        · exact runManufacturers_inv hinv h
        · cases h
          exact hinv

/-- Witness for C4: a concrete driver run from the fresh aggregate. -/
theorem items_rewritten_invariant_witness : resultsInv freshResults :=
  items_rewritten_invariant.2.1 (fun _ => []) (fun _ => []) (fun _ => [])
    (fun _ => none) (fun _ => none) "Produits" 0 freshResults freshResults
    items_rewritten_invariant.1 rfl

/-! ## C9: id-list parsing -/

theorem removeSpaces_middle (s₁ s₂ : String) :
    removeSpaces (s₁ ++ " " ++ s₂) = removeSpaces (s₁ ++ s₂) := by
  unfold removeSpaces
  have h1 : (s₁ ++ " " ++ s₂).toList = (s₁.toList ++ [' ']) ++ s₂.toList := by
    show (s₁ ++ " " ++ s₂).data = _
    rw [String.data_append, String.data_append]
    rfl
  have h2 : (s₁ ++ s₂).toList = s₁.toList ++ s₂.toList := by
    show (s₁ ++ s₂).data = _
    rw [String.data_append]
    rfl
  rw [h1, h2]
  simp [List.filter_append]

/-- C9: `parse_id_input` maps `"424-426,430"` to the id set
`{424, 425, 426, 430}` (ranges are inclusive, whitespace anywhere is
immaterial), duplicate tokens collapse into the set, and a malformed token
is skipped while the remaining valid tokens are still parsed. -/
theorem parse_id_input_spec :
    parseIdInput "424-426,430" = {424, 425, 426, 430} ∧
    parseIdInput " 424 - 426 , 430 " = {424, 425, 426, 430} ∧
    parseIdInput "424,424" = {424} ∧
    parseIdInput "424,foo,430" = {424, 430} ∧
    (∀ s₁ s₂ : String, parseIdInput (s₁ ++ " " ++ s₂) = parseIdInput (s₁ ++ s₂)) := by
  refine ⟨by decide, by decide, by decide, by decide, ?_⟩
  intro s₁ s₂
  by_cases h0 : s₁ ++ s₂ = ""
  · have hd := congrArg String.data h0
    rw [String.data_append] at hd
    have h2 := List.append_eq_nil.mp hd
    have hs1 : s₁ = "" := congrArg String.mk h2.1
    have hs2 : s₂ = "" := congrArg String.mk h2.2
    subst hs1
    subst hs2
    decide
  · have hL : ¬(s₁ ++ " " ++ s₂ = "") := by
      intro hc
      have := congrArg String.data hc
      rw [String.data_append, String.data_append] at this
      simp at this
    unfold parseIdInput
    rw [if_neg hL, if_neg h0, removeSpaces_middle]

end Fivape
